import Mathlib

/-!
Verification of the FSNB matching and feedback pipeline.

The definitions below are a shallow embedding of the repository's core:
the embedding gateway (`src/fsnb_matcher/embeddings/model_giga.py`), the
catalog XML parsing (`src/fsnb_matcher/services/fsnb_xml_parser.py`), the
item repository (`src/crud/item_repository.py`), the matcher
(`src/fsnb_matcher/services/matcher_service.py`), the vector indexer
(`src/fsnb_matcher/services/index_qdrant.py`), and the feedback commit
path (`src/train/services/feedback_persist_service.py`,
`src/crud/feedback_label_repository.py`).  External collaborators (the
sentence-transformer model, the Qdrant collection, the SQL engine) are
modelled at their documented interfaces: the model is an abstract
text-to-vector function, the index an abstract per-vector search, the
tables explicit in-memory lists.
-/

namespace Fsnb

/-! ### Python string primitives -/

/-- Whitespace characters stripped by Python `str.strip()` (ASCII subset;
the catalog data never carries the exotic Unicode space classes). -/
def isPySpace (c : Char) : Bool :=
  c = ' ' || c = '\t' || c = '\n' || c = '\r' || c = (Char.ofNat 11) || c = (Char.ofNat 12)

/-- Python `str.strip()` at the character-list level: drop leading and
trailing whitespace. -/
def stripL (l : List Char) : List Char :=
  ((l.dropWhile isPySpace).reverse.dropWhile isPySpace).reverse

/-- Python `s.strip()`: drop leading and trailing whitespace. -/
def pyStrip (s : String) : String :=
  (stripL s.toList).asString

/-- Python `s or None` idiom on an already-stripped string: empty strings
become `none`. -/
def optNonEmpty (s : String) : Option String :=
  if s = "" then none else some s

/-! ### EmbeddingGateway — `src/fsnb_matcher/embeddings/model_giga.py`

`encode(texts, *, is_query, batch_size=None)` prefixes every text with
`INSTRUCT_QUERY` when `is_query` is true (line 98-99) and hands the
resulting list to the underlying sentence-transformer.  The texts that
reach the model are the observable part of the contract; the model itself
is opaque. -/

/-- The fixed instruction string `INSTRUCT_QUERY` (model_giga.py line 13). -/
def instructQuery : String :=
  "Instruct: Given a database query, retrieve relevant FSNB entries\nQuery: "

/-- Texts handed to the underlying model by `encode` (model_giga.py lines
98-99): `texts = [INSTRUCT_QUERY + (t or "") for t in texts]` when
`is_query` is true, `texts` unchanged otherwise.  For strings,
`t or ""` equals `t` when `t` is nonempty and `""` otherwise, so the
prefixed text is `INSTRUCT_QUERY ++ t` in both cases. -/
def encodeInputs (texts : List String) (isQuery : Bool) : List String :=
  if isQuery then texts.map (fun t => instructQuery ++ t) else texts

/-- Default of the `is_query` keyword of `embed_texts` (model_giga.py
line 117): `False`. -/
def embedTextsDefaultIsQuery : Bool := false

/-- Texts reaching the model through `embed_texts(texts)` when the caller
passes no `is_query` argument (model_giga.py lines 117-122). -/
def embedTextsInputs (texts : List String) : List String :=
  encodeInputs texts embedTextsDefaultIsQuery

/-- Texts reaching the model for a caption batch in the match path:
`_embed_captions` (matcher_service.py lines 41-43) calls
`embed_texts(captions)` with no mode argument. -/
def embedCaptionsInputs (captions : List String) : List String :=
  embedTextsInputs captions

/-- C1 counterexample: in the match path the caption is handed to the
model unchanged, without the instruction string, contradicting the claim
that each caption is prefixed before embedding. -/
theorem embedCaptionsInputs_not_prefixed :
    embedCaptionsInputs ["Резистор 10к"] = ["Резистор 10к"] ∧
      instructQuery ++ "Резистор 10к" ≠ "Резистор 10к" := by
  constructor
  · rfl
  · decide

/-- C1 (amended): `encode` prefixes every text with the fixed instruction
string exactly when `is_query` is true; `embed_texts` defaults `is_query`
to false, so `MatcherService.match` encodes its captions as-is (document
mode), never prefixed. -/
theorem match_encodes_captions_without_instruction (texts captions : List String) :
    encodeInputs texts true = texts.map (fun t => instructQuery ++ t) ∧
      encodeInputs texts false = texts ∧
      embedCaptionsInputs captions = captions := by
  refine ⟨rfl, rfl, ?_⟩
  rfl

/-! ### Feedback data model — `src/train/models/*.py`

The relational rows that the commit path reads and writes, with the
columns the commit path touches. -/

/-- A `feedback_sessions` row (feedback_session.py). -/
structure FeedbackSessionR where
  id : Int
  status : String
  source_name : Option String
  created_by : Option String
deriving DecidableEq

/-- A `feedback_rows` row (feedback_row.py), restricted to the columns the
commit path reads or writes. -/
structure FeedbackRowR where
  id : Int
  session_id : Option Int
  caption : String
  is_trusted : Bool
  created_by : Option String
deriving DecidableEq

/-- A `feedback_labels` row (feedback_label.py), without the
server-generated `id`/`created_at` columns. -/
structure FeedbackLabelR where
  row_id : Int
  label : String
  selected_item_id : Option Int
  negatives : List Int
  note : Option String
  created_by : String
  is_trusted : Bool
deriving DecidableEq

/-- The three tables the commit path touches, as explicit state. -/
structure TrainDb where
  sessions : List FeedbackSessionR
  rows : List FeedbackRowR
  labels : List FeedbackLabelR
deriving DecidableEq

/-- A commit payload row as produced by
`ReviewService.normalize_commit_rows` (review_service.py lines 131-190),
which the commit route applies before calling `persist_commit`
(api_v1/review.py line 133): `row_idx` coerced to an integer (defaulting
to the position), `label` a string, `selected_item_id` an optional
integer, `negatives` a list of integers, `note` an optional string. -/
structure CommitRow where
  row_idx : Int
  caption : String
  units : Option String
  qty : Option String
  label : String
  selected_item_id : Option Int
  auto_selected_item_id : Option Int
  negatives : List Int
  note : Option String
deriving DecidableEq

/-! ### Sorting and dict helpers

Python `sorted` is a stable sort; the model uses a stable insertion
sort.  Python `dict` assignment overwrites the value of an existing key;
`dictInsert`/`dictGet` model exactly the `mapping[k] = v` / `mapping.get(k)`
pair used by the commit path. -/

/-- Insert `x` after every element of `l` whose key is `≤ key x`
(stable insertion). -/
def insertByKey (key : α → Int) (x : α) : List α → List α
  | [] => [x]
  | y :: ys => if key y ≤ key x then y :: insertByKey key x ys else x :: y :: ys

/-- Stable sort by an integer key (models Python `sorted(l, key=...)` and
the SQL `ORDER BY id ASC`). -/
def sortByKey (key : α → Int) (l : List α) : List α :=
  l.foldl (fun acc x => insertByKey key x acc) []

/-- Python `mapping[k] = v`: overwrite the existing binding or append. -/
def dictInsert (m : List (Int × Int)) (k v : Int) : List (Int × Int) :=
  match m with
  | [] => [(k, v)]
  | (k0, v0) :: rest => if k0 = k then (k, v) :: rest else (k0, v0) :: dictInsert rest k v

/-- Python `mapping.get(k)`. -/
def dictGet (m : List (Int × Int)) (k : Int) : Option Int :=
  (m.find? (fun p => decide (p.1 = k))).map (fun p => p.2)

/-! ### FeedbackPersistService — `src/train/services/feedback_persist_service.py` -/

/-- `FeedbackPersistService._build_row_id_by_idx` (lines 75-99): sort the
commit rows by `row_idx` (stable), then walk the session's DB rows
positionally, binding `mapping[row_idx] = db_row.id`; the loop breaks when
the commit rows run out, and surplus commit rows are never reached, so
the pairing is exactly the truncating zip.  On the typed payload,
`int(commit_rows_sorted[i].get("row_idx", i))` is the row's `row_idx`. -/
def buildRowIdByIdx (dbRows : List FeedbackRowR) (commitRows : List CommitRow) :
    List (Int × Int) :=
  let commitRowsSorted := sortByKey (fun r => r.row_idx) commitRows
  (dbRows.zip commitRowsSorted).foldl (fun m p => dictInsert m p.2.row_idx p.1.id) []

/-- Column names of the `feedback_labels` table
(`src/train/models/feedback_label.py`).  `bulk_create_from_commit` probes
this set before building each insert payload; against this schema every
probe succeeds, `selected_item_id` and `negatives` being present under
their primary names, so every field of the payload is written. -/
def feedbackLabelCols : List String :=
  ["id", "row_id", "label", "selected_item_id", "negatives", "note",
   "created_by", "created_at", "is_trusted"]

/-- One iteration of the row loop of
`FeedbackLabelRepository.bulk_create_from_commit`
(feedback_label_repository.py lines 88-133) on a normalized commit row:
resolve the DB row id through the mapping, trying `row_idx` and then
`row_idx + 1`, and skip the row when neither is bound; default a label
that strips to the empty string to `"gold"`; downgrade `"gold"` without a
`selected_item_id` to `"ambiguous"`; empty notes become null.  On the
typed fields, `_to_int_or_none` is the identity on
`row_idx`/`selected_item_id` and `_to_int_list` the identity on
`negatives`. -/
def mkLabelFromCommitRow (rowIdByIdx : List (Int × Int)) (createdBy : String)
    (isTrusted : Bool) (r : CommitRow) : Option FeedbackLabelR :=
  let rowIdx := r.row_idx
  let rowId :=
    match dictGet rowIdByIdx rowIdx with
    | some v => some v
    | none => dictGet rowIdByIdx (rowIdx + 1)
  match rowId with
  | none => none
  | some rid =>
      let label0 := pyStrip r.label
      let label1 := if label0 = "" then "gold" else label0
      let sel := r.selected_item_id
      let label2 := if label1 = "gold" ∧ sel = none then "ambiguous" else label1
      some { row_id := rid, label := label2, selected_item_id := sel,
             negatives := r.negatives, note := optNonEmpty (pyStrip (r.note.getD "")),
             created_by := createdBy, is_trusted := isTrusted }

/-- `FeedbackLabelRepository.bulk_create_from_commit`: the row loop
appends one label object per mapped row and skips the rest. -/
def bulkCreateFromCommit (rows : List CommitRow) (rowIdByIdx : List (Int × Int))
    (createdBy : String) (isTrusted : Bool) : List FeedbackLabelR :=
  rows.filterMap (mkLabelFromCommitRow rowIdByIdx createdBy isTrusted)

/-- The three `raise ValueError` sites of the session-id path of
`persist_commit` (lines 117, 120, 133). -/
inductive PersistErr where
  | sessionNotFound (sessionId : Int)
  | sessionAlreadyClosed (sessionId : Int)
  | sessionHasNoRows (sessionId : Int)
deriving DecidableEq

/-- `FeedbackPersistService.persist_commit` on the session-id path
(feedback_persist_service.py lines 113-172): look the session up by
primary key and fail when absent; fail when its status is `"closed"`;
load the session's rows ordered by id ascending and fail when there are
none; build the positional row-id mapping; delete every existing label of
those rows; set `is_trusted`/`created_by` on all the session's rows;
insert the labels built from the payload; and set the session's status to
`"closed"`.  The surrounding transaction commits all of it atomically,
which the functional state passing models exactly.  The status test
`str(getattr(fb_session, "status", "") or "") == "closed"` agrees with
the plain string comparison on the typed status column. -/
def persistCommit (db : TrainDb) (sessionId : Int) (rows : List CommitRow)
    (actorEmail : String) (isTrusted : Bool) : Except PersistErr (TrainDb × Int) :=
  match db.sessions.find? (fun t => decide (t.id = sessionId)) with
  | none => .error (.sessionNotFound sessionId)
  | some fbSession =>
      if fbSession.status = "closed" then .error (.sessionAlreadyClosed sessionId)
      else
        let dbRows := sortByKey (fun r => r.id)
          (db.rows.filter (fun r => decide (r.session_id = some sessionId)))
        if dbRows.isEmpty then .error (.sessionHasNoRows sessionId)
        else
          let rowIdByIdx := buildRowIdByIdx dbRows rows
          let rowIds := dbRows.map (fun r => r.id)
          let labelsKept := db.labels.filter (fun l => !(rowIds.contains l.row_id))
          let rowsUpdated := db.rows.map (fun r =>
            if r.session_id = some sessionId then
              { r with is_trusted := isTrusted, created_by := some actorEmail }
            else r)
          let newLabels := bulkCreateFromCommit rows rowIdByIdx actorEmail isTrusted
          let sessionsUpdated := db.sessions.map (fun t =>
            if t.id = sessionId then { t with status := "closed" } else t)
          .ok ({ sessions := sessionsUpdated, rows := rowsUpdated,
                 labels := labelsKept ++ newLabels }, sessionId)

/-- Result discriminator for `Except` values. -/
def isOkE : Except ε α → Bool
  | .ok _ => true
  | .error _ => false

/-! ### Concrete fixtures for the commit-path scenarios -/

/-- A normalized commit row with label `"gold"` and a selection. -/
def sampleCommitRow (i : Int) : CommitRow :=
  { row_idx := i, caption := "кабель", units := none, qty := none, label := "gold",
    selected_item_id := some 5, auto_selected_item_id := none, negatives := [], note := none }

/-- An open feedback session with id 1. -/
def sessionOpen1 : FeedbackSessionR :=
  { id := 1, status := "open", source_name := some "spec.json",
    created_by := some "u@example.com" }

/-- A feedback row of session 1. -/
def feedbackRow10 : FeedbackRowR :=
  { id := 10, session_id := some 1, caption := "кабель", is_trusted := false,
    created_by := none }

/-- A second feedback row of session 1. -/
def feedbackRow11 : FeedbackRowR :=
  { id := 11, session_id := some 1, caption := "труба", is_trusted := false,
    created_by := none }

/-- A pre-existing label on row 10, left over from an earlier commit. -/
def staleLabel10 : FeedbackLabelR :=
  { row_id := 10, label := "skip", selected_item_id := none, negatives := [], note := none,
    created_by := "old@example.com", is_trusted := false }

/-- State with an open 2-row session and one stale label. -/
def dbTwoRows : TrainDb :=
  { sessions := [sessionOpen1], rows := [feedbackRow10, feedbackRow11],
    labels := [staleLabel10] }

/-- State holding no session at all. -/
def dbEmptyTrain : TrainDb := { sessions := [], rows := [], labels := [] }

/-- State whose only session is already closed. -/
def dbClosed1 : TrainDb :=
  { sessions := [{ sessionOpen1 with status := "closed" }], rows := [feedbackRow10],
    labels := [] }

/-- State with an open 1-row session and no labels. -/
def dbOneRow : TrainDb := { sessions := [sessionOpen1], rows := [feedbackRow10], labels := [] }

/-- The state produced by committing `[sampleCommitRow 0]` into `dbOneRow`. -/
def dbOneRowCommitted : TrainDb :=
  { sessions := [{ sessionOpen1 with status := "closed" }],
    rows := [{ feedbackRow10 with is_trusted := true, created_by := some "u@example.com" }],
    labels := [{ row_id := 10, label := "gold", selected_item_id := some 5, negatives := [],
                 note := none, created_by := "u@example.com", is_trusted := true }] }

/-! ### Commit-path lemmas -/

lemma find?_map_close (l : List FeedbackSessionR) (sid : Int) (s : FeedbackSessionR)
    (h : l.find? (fun t => decide (t.id = sid)) = some s) :
    (l.map (fun t => if t.id = sid then { t with status := "closed" } else t)).find?
        (fun t => decide (t.id = sid)) = some { s with status := "closed" } := by
  induction l with
  | nil => simp [List.find?] at h
  | cons a l ih =>
      by_cases ha : a.id = sid
      · rw [List.find?_cons_of_pos _ (by simpa using ha)] at h
        obtain rfl : a = s := by injection h
        simp only [List.map_cons, if_pos ha]
        exact List.find?_cons_of_pos _ (by simpa using ha)
      · rw [List.find?_cons_of_neg _ (by simpa using ha)] at h
        simp only [List.map_cons, if_neg ha]
        rw [List.find?_cons_of_neg _ (by simpa using ha)]
        exact ih h

lemma persistCommit_ok_inv (db : TrainDb) (sid : Int) (rows : List CommitRow)
    (ae : String) (tr : Bool) (db2 : TrainDb) (sid2 : Int)
    (h : persistCommit db sid rows ae tr = .ok (db2, sid2)) :
    db2.sessions =
      db.sessions.map (fun t => if t.id = sid then { t with status := "closed" } else t) := by
  cases hf : db.sessions.find? (fun t => decide (t.id = sid)) with
  | none => simp [persistCommit, hf] at h
  | some s =>
      simp only [persistCommit, hf] at h
      by_cases hs : s.status = "closed"
      · simp [hs] at h
      · by_cases he : (sortByKey (fun r => r.id)
            (db.rows.filter (fun r => decide (r.session_id = some sid)))).isEmpty
        · simp [hs, he] at h
        · simp only [hs, he, if_neg, if_false, Bool.false_eq_true, Except.ok.injEq,
            Prod.mk.injEq] at h
          obtain ⟨h1, h2⟩ := h
          rw [← h1]

/-- C2: `persist_commit` fails with the not-found error when no session
with the given id exists, fails with the already-closed conflict when the
session's status is `"closed"`, and after any successful commit a second
commit against the same session (with any payload, in particular an
identical one) is rejected with the already-closed conflict, because the
first commit transitioned the session to `"closed"`. -/
theorem persistCommit_guards (db : TrainDb) (sessionId : Int)
    (rows rows2 : List CommitRow) (actorEmail : String) (isTrusted : Bool) :
    (db.sessions.find? (fun t => decide (t.id = sessionId)) = none →
        persistCommit db sessionId rows actorEmail isTrusted =
          .error (.sessionNotFound sessionId)) ∧
    (∀ s, db.sessions.find? (fun t => decide (t.id = sessionId)) = some s →
        s.status = "closed" →
        persistCommit db sessionId rows actorEmail isTrusted =
          .error (.sessionAlreadyClosed sessionId)) ∧
    (∀ db2 sid2, persistCommit db sessionId rows actorEmail isTrusted = .ok (db2, sid2) →
        persistCommit db2 sessionId rows2 actorEmail isTrusted =
          .error (.sessionAlreadyClosed sessionId)) := by
  refine ⟨?_, ?_, ?_⟩
  · intro h
    simp [persistCommit, h]
  · intro s hf hs
    simp [persistCommit, hf, hs]
  · intro db2 sid2 hok
    have hsess := persistCommit_ok_inv db sessionId rows actorEmail isTrusted db2 sid2 hok
    have hfind : (db.sessions.find? (fun t => decide (t.id = sessionId))).isSome := by
      cases hf : db.sessions.find? (fun t => decide (t.id = sessionId)) with
      | none => simp [persistCommit, hf] at hok
      | some s => simp
    obtain ⟨s, hf⟩ := Option.isSome_iff_exists.mp hfind
    have hcl := find?_map_close db.sessions sessionId s hf
    simp [persistCommit, hsess, hcl]

/-- C2 witness: the three guard behaviours at concrete states — a missing
session, a closed session, and a session closed by a first successful
commit. -/
theorem persistCommit_guards_witness :
    persistCommit dbEmptyTrain 7 [sampleCommitRow 0] "u@example.com" true =
        .error (.sessionNotFound 7) ∧
    persistCommit dbClosed1 1 [sampleCommitRow 0] "u@example.com" true =
        .error (.sessionAlreadyClosed 1) ∧
    persistCommit dbOneRowCommitted 1 [sampleCommitRow 0] "u@example.com" true =
        .error (.sessionAlreadyClosed 1) := by
  refine ⟨?_, ?_, ?_⟩
  · exact (persistCommit_guards dbEmptyTrain 7 [sampleCommitRow 0] [sampleCommitRow 0]
      "u@example.com" true).1 (by rfl)
  · exact (persistCommit_guards dbClosed1 1 [sampleCommitRow 0] [sampleCommitRow 0]
      "u@example.com" true).2.1 { sessionOpen1 with status := "closed" } (by rfl) (by rfl)
  · exact (persistCommit_guards dbOneRow 1 [sampleCommitRow 0] [sampleCommitRow 0]
      "u@example.com" true).2.2 dbOneRowCommitted 1 (by rfl)

lemma length_insertByKey (key : α → Int) (x : α) (l : List α) :
    (insertByKey key x l).length = l.length + 1 := by
  induction l with
  | nil => rfl
  | cons y ys ih =>
      unfold insertByKey
      by_cases h : key y ≤ key x <;> simp [h, ih]

lemma length_foldl_insertByKey (key : α → Int) (l acc : List α) :
    (l.foldl (fun a x => insertByKey key x a) acc).length = acc.length + l.length := by
  induction l generalizing acc with
  | nil => simp
  | cons x xs ih => simp [List.foldl, ih, length_insertByKey]; omega

lemma length_sortByKey (key : α → Int) (l : List α) :
    (sortByKey key l).length = l.length := by
  unfold sortByKey
  rw [length_foldl_insertByKey]
  simp

lemma sortByKey_eq_nil_iff (key : α → Int) (l : List α) :
    sortByKey key l = [] ↔ l = [] := by
  constructor
  · intro h
    have := length_sortByKey key l
    rw [h] at this
    exact List.length_eq_zero.mp this.symm
  · intro h
    subst h
    rfl

/-- C5 (amended): a commit whose payload row count differs from the
session's row count is not rejected: provided the session exists, is not
closed, and owns at least one row, `persist_commit` succeeds anyway,
pairing payload rows with DB rows positionally and silently dropping the
surplus on either side. -/
theorem persistCommit_ignores_row_count_mismatch (db : TrainDb) (sessionId : Int)
    (rows : List CommitRow) (actorEmail : String) (isTrusted : Bool) (s : FeedbackSessionR)
    (hfind : db.sessions.find? (fun t => decide (t.id = sessionId)) = some s)
    (hopen : s.status ≠ "closed")
    (hrows : db.rows.filter (fun r => decide (r.session_id = some sessionId)) ≠ [])
    (hmismatch : rows.length ≠
      (db.rows.filter (fun r => decide (r.session_id = some sessionId))).length) :
    isOkE (persistCommit db sessionId rows actorEmail isTrusted) = true := by
  have hne : (sortByKey (fun r => r.id)
      (db.rows.filter (fun r => decide (r.session_id = some sessionId)))).isEmpty = false := by
    rw [List.isEmpty_eq_false_iff_exists_mem]
    obtain ⟨x, hx⟩ := List.exists_mem_of_ne_nil _ hrows
    have : (sortByKey (fun r => r.id)
        (db.rows.filter (fun r => decide (r.session_id = some sessionId)))) ≠ [] := by
      intro h0
      exact hrows ((sortByKey_eq_nil_iff _ _).mp h0)
    exact List.exists_mem_of_ne_nil _ this
  simp [persistCommit, hfind, hopen, hne, isOkE]

/-- C5 witness for the amended theorem: a 1-row payload against the open
2-row session commits successfully. -/
theorem persistCommit_ignores_row_count_mismatch_witness :
    isOkE (persistCommit dbTwoRows 1 [sampleCommitRow 0] "u@example.com" true) = true :=
  persistCommit_ignores_row_count_mismatch dbTwoRows 1 [sampleCommitRow 0] "u@example.com"
    true sessionOpen1 (by rfl) (by decide) (by decide) (by decide)

/-- C5 counterexample: committing a 3-row payload against the open 2-row
session succeeds — no state-conflict error is raised — and writes exactly
2 labels by positional truncation, so the mismatch is silently resolved
rather than rejected. -/
theorem persistCommit_mismatch_not_conflict :
    isOkE (persistCommit dbTwoRows 1 [sampleCommitRow 0, sampleCommitRow 1, sampleCommitRow 2]
        "u@example.com" true) = true ∧
    Except.map (fun p => p.1.labels.length)
        (persistCommit dbTwoRows 1 [sampleCommitRow 0, sampleCommitRow 1, sampleCommitRow 2]
          "u@example.com" true) = .ok 2 ∧
    [sampleCommitRow 0, sampleCommitRow 1, sampleCommitRow 2].length ≠
      (dbTwoRows.rows.filter (fun r => decide (r.session_id = some 1))).length := by
  refine ⟨by rfl, by rfl, by decide⟩

lemma insertByKey_all_le (key : α → Int) (x : α) (l : List α)
    (h : ∀ y ∈ l, key y ≤ key x) : insertByKey key x l = l ++ [x] := by
  induction l with
  | nil => rfl
  | cons y ys ih =>
      unfold insertByKey
      rw [if_pos (h y (List.mem_cons_self y ys))]
      simp [ih (fun z hz => h z (List.mem_cons_of_mem y hz))]

lemma foldl_insertByKey_sorted (key : α → Int) (l : List α) :
    ∀ acc : List α, (acc ++ l).Pairwise (fun a b => key a ≤ key b) →
      l.foldl (fun a x => insertByKey key x a) acc = acc ++ l := by
  induction l with
  | nil => intro acc _; simp
  | cons x xs ih =>
      intro acc h
      have hx : ∀ y ∈ acc, key y ≤ key x := by
        intro y hy
        rcases List.pairwise_append.mp h with ⟨_, _, hcross⟩
        exact hcross y hy x (List.mem_cons_self x xs)
      have hshift : ((acc ++ [x]) ++ xs).Pairwise (fun a b => key a ≤ key b) := by
        rw [List.append_assoc, List.singleton_append]
        exact h
      simp only [List.foldl_cons]
      rw [insertByKey_all_le key x acc hx, ih (acc ++ [x]) hshift,
        List.append_assoc, List.singleton_append]

lemma sortByKey_of_pairwise (key : α → Int) (l : List α)
    (h : l.Pairwise (fun a b => key a ≤ key b)) : sortByKey key l = l := by
  have := foldl_insertByKey_sorted key l [] (by simpa using h)
  simpa [sortByKey] using this

lemma dictInsert_fresh (m : List (Int × Int)) (k v : Int)
    (h : ∀ p ∈ m, p.1 ≠ k) : dictInsert m k v = m ++ [(k, v)] := by
  induction m with
  | nil => rfl
  | cons p ps ih =>
      obtain ⟨k0, v0⟩ := p
      have hk0 : k0 ≠ k := h (k0, v0) (List.mem_cons_self _ _)
      simp only [dictInsert, if_neg hk0, List.cons_append, List.cons.injEq, true_and]
      exact ih (fun q hq => h q (List.mem_cons_of_mem _ hq))

lemma foldl_dictInsert_fresh (ps : List (Int × Int)) :
    ∀ m : List (Int × Int), (m.map Prod.fst ++ ps.map Prod.fst).Nodup →
      ps.foldl (fun acc p => dictInsert acc p.1 p.2) m = m ++ ps := by
  induction ps with
  | nil => intro m _; simp
  | cons p ps ih =>
      intro m hnd
      have hfresh : ∀ q ∈ m, q.1 ≠ p.1 := by
        intro q hq hqeq
        rcases List.nodup_append.mp hnd with ⟨_, _, hdisj⟩
        exact hdisj (List.mem_map_of_mem Prod.fst hq)
          (by rw [hqeq]; exact List.mem_cons_self _ _)
      have hnd2 : ((m ++ [p]).map Prod.fst ++ ps.map Prod.fst).Nodup := by
        rw [List.map_append, List.append_assoc]
        simpa using hnd
      have hins : dictInsert m p.1 p.2 = m ++ [p] := by
        rw [dictInsert_fresh m p.1 p.2 hfresh]
      simp only [List.foldl_cons, hins]
      rw [ih (m ++ [p]) hnd2, List.append_assoc, List.singleton_append]

lemma dictGet_mem_nodup (m : List (Int × Int)) (k v : Int)
    (hnd : (m.map Prod.fst).Nodup) (hmem : (k, v) ∈ m) : dictGet m k = some v := by
  induction m with
  | nil => cases hmem
  | cons p ps ih =>
      rcases List.mem_cons.mp hmem with h1 | h2
      · rw [← h1]
        simp [dictGet, List.find?]
      · have hnd2 : (p.1 :: ps.map Prod.fst).Nodup := by simpa using hnd
        have hcons := List.nodup_cons.mp hnd2
        have hin : k ∈ ps.map Prod.fst := List.mem_map.mpr ⟨(k, v), h2, rfl⟩
        have hk : p.1 ≠ k := fun he => hcons.1 (he ▸ hin)
        simp only [dictGet, List.find?]
        rw [show (decide (p.1 = k)) = false by simp [hk]]
        exact ih hcons.2 h2

lemma filterMap_forall₂_some (f : α → Option β) (l : List α)
    (h : ∀ x ∈ l, (f x).isSome) :
    List.Forall₂ (fun x b => f x = some b) l (l.filterMap f) := by
  induction l with
  | nil => simp [List.filterMap]
  | cons x xs ih =>
      obtain ⟨b, hb⟩ := Option.isSome_iff_exists.mp (h x (List.mem_cons_self x xs))
      rw [List.filterMap_cons, hb]
      exact List.Forall₂.cons hb (ih (fun y hy => h y (List.mem_cons_of_mem x hy)))

lemma mkLabel_of_dictGet (m : List (Int × Int)) (cb : String) (tr : Bool) (r : CommitRow)
    (rid : Int) (h : dictGet m r.row_idx = some rid) :
    ∃ lab, mkLabelFromCommitRow m cb tr r = some lab ∧ lab.row_id = rid := by
  simp only [mkLabelFromCommitRow, h]
  exact ⟨_, rfl, rfl⟩

/-- C3: against an open session owning at least one row, a commit whose
payload matches the session positionally (one payload row per DB row,
`row_idx` equal to the position, exactly what the review UI and
`normalize_commit_rows` produce, and what §4.8 step 2 of the spec
requires of callers) succeeds; the resulting label table is the previous
one with every label of the session's rows deleted, followed by the
freshly inserted labels — exactly one new label per payload row, the
`i`-th new label bound to the `i`-th DB row — so each input row ends up
with exactly one label and no duplicate label history accumulates. -/
theorem persistCommit_replaces_labels (db : TrainDb) (sessionId : Int)
    (rows : List CommitRow) (actorEmail : String) (isTrusted : Bool)
    (s : FeedbackSessionR) (dbRows : List FeedbackRowR)
    (hdb : dbRows = sortByKey (fun r => r.id)
      (db.rows.filter (fun r => decide (r.session_id = some sessionId))))
    (hfind : db.sessions.find? (fun t => decide (t.id = sessionId)) = some s)
    (hopen : s.status ≠ "closed")
    (hne : dbRows ≠ [])
    (hlen : rows.length = dbRows.length)
    (hidx : ∀ i (hi : i < rows.length), (rows.get ⟨i, hi⟩).row_idx = (i : Int)) :
    ∃ db2 nl,
      persistCommit db sessionId rows actorEmail isTrusted = .ok (db2, sessionId) ∧
      db2.labels =
        db.labels.filter (fun l => !((dbRows.map (fun r => r.id)).contains l.row_id)) ++ nl ∧
      nl.length = rows.length ∧
      List.Forall₂ (fun (lab : FeedbackLabelR) (r : FeedbackRowR) => lab.row_id = r.id)
        nl dbRows := by
  -- the stable sort leaves the canonically indexed payload unchanged
  have hsortrows : sortByKey (fun r => r.row_idx) rows = rows := by
    apply sortByKey_of_pairwise
    rw [List.pairwise_iff_get]
    intro i j hij
    rw [hidx i i.isLt, hidx j j.isLt]
    exact_mod_cast Nat.le_of_lt hij
  -- the mapping pairs index i with the id of the i-th DB row
  set ps : List (Int × Int) := (dbRows.zip rows).map (fun p => (p.2.row_idx, p.1.id))
    with hps
  have hzlen : (dbRows.zip rows).length = rows.length := by
    rw [List.length_zip, ← hlen, Nat.min_self]
  have hpslen : ps.length = rows.length := by rw [hps, List.length_map, hzlen]
  have hget : ∀ i (hi : i < ps.length) (hi2 : i < dbRows.length),
      ps.get ⟨i, hi⟩ = ((i : Int), (dbRows.get ⟨i, hi2⟩).id) := by
    intro i hi hi2
    have hir : i < rows.length := hpslen ▸ hi
    rw [List.get_eq_getElem]
    show (List.map (fun p => (p.2.row_idx, p.1.id)) (dbRows.zip rows))[i] = _
    rw [List.getElem_map, List.getElem_zip]
    have hx := hidx i hir
    rw [List.get_eq_getElem] at hx
    rw [hx, List.get_eq_getElem]
  have hkeysnodup : (ps.map Prod.fst).Nodup := by
    have hkeq : ps.map Prod.fst = (List.range rows.length).map (Nat.cast : ℕ → ℤ) := by
      apply List.ext_get
      · rw [List.length_map, hpslen, List.length_map, List.length_range]
      · intro n h1 h2
        have hn : n < ps.length := by rw [List.length_map] at h1; exact h1
        have hn2 : n < dbRows.length := by rw [← hlen]; exact hpslen ▸ hn
        simp only [List.get_eq_getElem, List.getElem_map, List.getElem_range]
        rw [← List.get_eq_getElem ps ⟨n, hn⟩, hget n hn hn2]
    rw [hkeq]
    exact List.Nodup.map Nat.cast_injective (List.nodup_range _)
  have hmapping : buildRowIdByIdx dbRows rows = ps := by
    unfold buildRowIdByIdx
    rw [hsortrows]
    have hfold : (dbRows.zip rows).foldl (fun m p => dictInsert m p.2.row_idx p.1.id) [] =
        ps.foldl (fun acc q => dictInsert acc q.1 q.2) [] := by
      rw [hps, List.foldl_map]
    rw [hfold, foldl_dictInsert_fresh ps [] (by simpa using hkeysnodup)]
    simp
  have hdict : ∀ i (hi : i < rows.length),
      dictGet ps (i : Int) = some ((dbRows.get ⟨i, hlen ▸ hi⟩).id) := by
    intro i hi
    apply dictGet_mem_nodup ps _ _ hkeysnodup
    have hpi : i < ps.length := by rw [hpslen]; exact hi
    rw [← hget i hpi (hlen ▸ hi)]
    exact List.get_mem ps _ _
  have hsome : ∀ x ∈ rows, (mkLabelFromCommitRow ps actorEmail isTrusted x).isSome := by
    intro x hx
    obtain ⟨i, hi, hx⟩ := List.mem_iff_getElem.mp hx
    obtain ⟨lab, hlab, _⟩ := mkLabel_of_dictGet ps actorEmail isTrusted x
      ((dbRows.get ⟨i, hlen ▸ hi⟩).id)
      (by rw [← hx, ← List.get_eq_getElem rows ⟨i, hi⟩, hidx i hi]; exact hdict i hi)
    simp [hlab]
  have hfa : List.Forall₂ (fun x b => mkLabelFromCommitRow ps actorEmail isTrusted x = some b)
      rows (rows.filterMap (mkLabelFromCommitRow ps actorEmail isTrusted)) :=
    filterMap_forall₂_some _ _ hsome
  have hnl_len : (rows.filterMap (mkLabelFromCommitRow ps actorEmail isTrusted)).length
      = rows.length := hfa.length_eq.symm
  have hforall : List.Forall₂
      (fun (lab : FeedbackLabelR) (r : FeedbackRowR) => lab.row_id = r.id)
      (rows.filterMap (mkLabelFromCommitRow ps actorEmail isTrusted)) dbRows := by
    rw [List.forall₂_iff_get]
    refine ⟨by rw [hnl_len, hlen], ?_⟩
    intro i h1 h2
    have hi : i < rows.length := by rw [← hnl_len]; exact h1
    obtain ⟨lab, hlab, hrid⟩ := mkLabel_of_dictGet ps actorEmail isTrusted
      (rows.get ⟨i, hi⟩) ((dbRows.get ⟨i, hlen ▸ hi⟩).id)
      (by rw [hidx i hi]; exact hdict i hi)
    have hg := (List.forall₂_iff_get.mp hfa).2 i hi h1
    rw [hlab] at hg
    have : (rows.filterMap (mkLabelFromCommitRow ps actorEmail isTrusted)).get ⟨i, h1⟩
        = lab := by
      injection hg.symm
    rw [this, hrid]
  -- run the commit
  have hne3 : dbRows.isEmpty = false := by
    cases hd : dbRows with
    | nil => exact absurd hd hne
    | cons a l => rfl
  have hrun : persistCommit db sessionId rows actorEmail isTrusted =
      .ok ({ sessions := db.sessions.map
               (fun t => if t.id = sessionId then { t with status := "closed" } else t),
             rows := db.rows.map (fun r =>
               if r.session_id = some sessionId then
                 { r with is_trusted := isTrusted, created_by := some actorEmail }
               else r),
             labels := db.labels.filter
                 (fun l => !((dbRows.map (fun r => r.id)).contains l.row_id)) ++
               bulkCreateFromCommit rows (buildRowIdByIdx dbRows rows)
                 actorEmail isTrusted }, sessionId) := by
    simp only [persistCommit, hfind]
    rw [if_neg hopen, ← hdb]
    simp only [hne3, Bool.false_eq_true, if_false]
  refine ⟨_, _, hrun, rfl, ?_, ?_⟩
  · rw [hmapping]
    exact hnl_len
  · rw [hmapping]
    exact hforall

/-- C3 witness: committing the matching 2-row payload into the open 2-row
session with a stale label present. -/
theorem persistCommit_replaces_labels_witness :
    ∃ db2 nl,
      persistCommit dbTwoRows 1 [sampleCommitRow 0, sampleCommitRow 1] "u@example.com" true =
        .ok (db2, 1) ∧
      db2.labels =
        dbTwoRows.labels.filter
          (fun l => !((([feedbackRow10, feedbackRow11].map (fun r => r.id)).contains
            l.row_id))) ++ nl ∧
      nl.length = [sampleCommitRow 0, sampleCommitRow 1].length ∧
      List.Forall₂ (fun (lab : FeedbackLabelR) (r : FeedbackRowR) => lab.row_id = r.id)
        nl [feedbackRow10, feedbackRow11] :=
  persistCommit_replaces_labels dbTwoRows 1 [sampleCommitRow 0, sampleCommitRow 1]
    "u@example.com" true sessionOpen1 [feedbackRow10, feedbackRow11]
    (by rfl) (by rfl) (by decide) (by decide) (by decide)
    (by
      intro i hi
      match i with
      | 0 => rfl
      | 1 => rfl
      | n + 2 => exact absurd hi (by simp only [List.length_cons, List.length_nil]; omega))

/-- C4: a payload row carrying label `"gold"` but no `selected_item_id`
is downgraded explicitly: whenever the positional mapping resolves its
row id (so the row is stored at all), the created label exists — the row
is not dropped — and its stored label is `"ambiguous"`, not `"gold"`,
and it is among the labels inserted by the bulk commit. -/
theorem gold_without_selection_stored_ambiguous (rows : List CommitRow)
    (m : List (Int × Int)) (createdBy : String) (isTrusted : Bool) (r : CommitRow)
    (hr : r ∈ rows)
    (hmap : (dictGet m r.row_idx).isSome ∨ (dictGet m (r.row_idx + 1)).isSome)
    (hlabel : pyStrip r.label = "gold")
    (hsel : r.selected_item_id = none) :
    ∃ lab, mkLabelFromCommitRow m createdBy isTrusted r = some lab ∧
      lab.label = "ambiguous" ∧
      lab ∈ bulkCreateFromCommit rows m createdBy isTrusted := by
  have hsome : ∃ rid, (match dictGet m r.row_idx with
      | some v => some v
      | none => dictGet m (r.row_idx + 1)) = some rid := by
    cases hd : dictGet m r.row_idx with
    | some v => exact ⟨v, rfl⟩
    | none =>
        rcases hmap with h | h
        · rw [hd] at h; simp at h
        · obtain ⟨v, hv⟩ := Option.isSome_iff_exists.mp h
          exact ⟨v, by rw [hv]⟩
  obtain ⟨rid, hrid⟩ := hsome
  have hmk : mkLabelFromCommitRow m createdBy isTrusted r = some
      { row_id := rid, label := "ambiguous", selected_item_id := none,
        negatives := r.negatives, note := optNonEmpty (pyStrip (r.note.getD "")),
        created_by := createdBy, is_trusted := isTrusted } := by
    simp +decide only [mkLabelFromCommitRow, hrid, hlabel, hsel]
    simp
  exact ⟨_, hmk, rfl, List.mem_filterMap.mpr ⟨r, hr, hmk⟩⟩

/-- A commit row with label `"gold"` and no selection. -/
def goldNoSelRow : CommitRow := { sampleCommitRow 0 with selected_item_id := none }

/-- C4 witness: the concrete gold-without-selection row mapped to DB row
10 is stored with label `"ambiguous"`. -/
theorem gold_without_selection_stored_ambiguous_witness :
    ∃ lab, mkLabelFromCommitRow [(0, 10)] "u@example.com" true goldNoSelRow = some lab ∧
      lab.label = "ambiguous" ∧
      lab ∈ bulkCreateFromCommit [goldNoSelRow] [(0, 10)] "u@example.com" true :=
  gold_without_selection_stored_ambiguous [goldNoSelRow] [(0, 10)] "u@example.com" true
    goldNoSelRow (by decide) (Or.inl (by decide)) (by decide) (by decide)

/-! ### ItemStore — `src/crud/item_repository.py`

The ingestion write path: `bulk_insert_items` buffers `(code, name, unit,
type)` tuples and flushes chunks of `chunk_size` through `_flush`, a
single `INSERT ... ON CONFLICT (code) DO NOTHING` per chunk.  The table
is explicit state; the id column is fed by a sequence, which Postgres
advances on every attempted insert, conflicting ones included. -/

/-- A catalog tuple `(code, name, unit, type)` — `RowTuple` of
item_repository.py line 23 and fsnb_xml_parser.py line 8. -/
abbrev RowTuple := String × String × Option String × String

/-- An `items` table row. -/
structure ItemR where
  id : Int
  code : String
  name : String
  unit : Option String
  kind : String
deriving DecidableEq

/-- The `items` table plus its id sequence. -/
structure ItemsTable where
  seq : Int
  rows : List ItemR
deriving DecidableEq

/-- One attempted row insert under `ON CONFLICT (code) DO NOTHING`: a
tuple whose code an existing row already carries is ignored (the sequence
still advances); otherwise the row is appended with the next id. -/
def insertIgnore (t : ItemsTable) (r : RowTuple) : ItemsTable :=
  if t.rows.any (fun x => decide (x.code = r.1)) then { t with seq := t.seq + 1 }
  else { seq := t.seq + 1,
         rows := t.rows ++ [{ id := t.seq, code := r.1, name := r.2.1,
                              unit := r.2.2.1, kind := r.2.2.2 }] }

/-- `ItemRepository._flush` (lines 180-189): one chunk INSERT; the VALUES
rows are attempted in order, so a code duplicated inside one chunk also
inserts only its first occurrence. -/
def flushChunk (t : ItemsTable) (chunk : List RowTuple) : ItemsTable :=
  chunk.foldl insertIgnore t

/-- Split a list into chunks of `n` elements, the last one partial; the
fuel argument (instantiated with the list length) makes the recursion
structural. -/
def chunkListAux (fuel : Nat) (n : Nat) : List α → List (List α)
  | [] => []
  | l@(_ :: _) =>
      match fuel with
      | 0 => []
      | fuel + 1 => l.take n :: chunkListAux fuel n (l.drop n)

/-- Split a list into chunks of `n > 0` elements, the last one partial. -/
def chunkList (n : Nat) (l : List α) : List (List α) :=
  if n = 0 then [] else chunkListAux l.length n l

/-- `ItemRepository.bulk_insert_items` (lines 159-178): buffer the tuples,
flush a full chunk whenever `chunk_size` rows have accumulated and flush
the final partial chunk — the resulting table is the chunked left fold of
the attempted inserts. -/
def bulkInsertItems (t : ItemsTable) (rows : List RowTuple) (chunkSize : Nat) : ItemsTable :=
  (chunkList chunkSize rows).foldl flushChunk t

/-- The codes currently present in the table. -/
def tableCodes (t : ItemsTable) : List String := t.rows.map (fun x => x.code)

/-- The `(code, name, unit, kind)` tuple of a stored row. -/
def itemTuple (x : ItemR) : RowTuple := (x.code, x.name, x.unit, x.kind)

lemma insertIgnore_codes_mono (t : ItemsTable) (r : RowTuple) (c : String)
    (h : c ∈ tableCodes t) : c ∈ tableCodes (insertIgnore t r) := by
  unfold tableCodes at h
  unfold insertIgnore tableCodes
  split
  · exact h
  · rw [List.map_append]
    exact List.mem_append_left _ h

lemma insertIgnore_adds (t : ItemsTable) (r : RowTuple) :
    r.1 ∈ tableCodes (insertIgnore t r) := by
  unfold insertIgnore tableCodes
  split
  · next hcond =>
      obtain ⟨x, hx, hxc⟩ := List.any_eq_true.mp hcond
      have hxe : x.code = r.1 := of_decide_eq_true hxc
      exact hxe ▸ List.mem_map_of_mem _ hx
  · simp

lemma foldl_insertIgnore_codes_mono (rows : List RowTuple) (t : ItemsTable) (c : String)
    (h : c ∈ tableCodes t) : c ∈ tableCodes (rows.foldl insertIgnore t) := by
  induction rows generalizing t with
  | nil => exact h
  | cons x xs ih => exact ih _ (insertIgnore_codes_mono t x c h)

lemma foldl_insertIgnore_covers (rows : List RowTuple) (t : ItemsTable) :
    ∀ r ∈ rows, r.1 ∈ tableCodes (rows.foldl insertIgnore t) := by
  induction rows generalizing t with
  | nil => intro r hr; cases hr
  | cons x xs ih =>
      intro r hr
      rcases List.mem_cons.mp hr with h1 | h2
      · subst h1
        exact foldl_insertIgnore_codes_mono xs (insertIgnore t r) _ (insertIgnore_adds t r)
      · exact ih (insertIgnore t x) r h2

lemma insertIgnore_rows_of_mem (t : ItemsTable) (r : RowTuple)
    (h : r.1 ∈ tableCodes t) : (insertIgnore t r).rows = t.rows := by
  unfold insertIgnore
  split
  · rfl
  · next hcond =>
      exfalso
      obtain ⟨x, hx, hxe⟩ := List.mem_map.mp h
      exact hcond (List.any_eq_true.mpr ⟨x, hx, decide_eq_true hxe⟩)

lemma insertIgnore_codes_of_mem (t : ItemsTable) (r : RowTuple)
    (h : r.1 ∈ tableCodes t) : tableCodes (insertIgnore t r) = tableCodes t := by
  unfold tableCodes
  rw [insertIgnore_rows_of_mem t r h]

lemma foldl_insertIgnore_rows_noop (rows : List RowTuple) (t : ItemsTable)
    (h : ∀ r ∈ rows, r.1 ∈ tableCodes t) :
    (rows.foldl insertIgnore t).rows = t.rows := by
  induction rows generalizing t with
  | nil => rfl
  | cons x xs ih =>
      have hx := h x (List.mem_cons_self x xs)
      rw [List.foldl_cons,
        ih (insertIgnore t x) (fun r hr => by
          rw [insertIgnore_codes_of_mem t x hx]
          exact h r (List.mem_cons_of_mem x hr)),
        insertIgnore_rows_of_mem t x hx]

lemma chunkListAux_foldl (c : Nat) (hc : 0 < c) :
    ∀ (fuel : Nat) (rows : List RowTuple), rows.length ≤ fuel → ∀ t : ItemsTable,
      (chunkListAux fuel c rows).foldl flushChunk t = rows.foldl insertIgnore t := by
  intro fuel
  induction fuel with
  | zero =>
      intro rows hr t
      have h0 : rows = [] := List.length_eq_zero.mp (Nat.le_zero.mp hr)
      subst h0
      rfl
  | succ n ih =>
      intro rows hr t
      cases hrow : rows with
      | nil => rfl
      | cons a as =>
          subst hrow
          show ((a :: as).take c :: chunkListAux n c ((a :: as).drop c)).foldl flushChunk t
            = (a :: as).foldl insertIgnore t
          rw [List.foldl_cons]
          have hdrop : ((a :: as).drop c).length ≤ n := by
            rw [List.length_drop]
            have hpos : 0 < (a :: as).length := by simp
            simp only [List.length_cons] at hr ⊢
            omega
          rw [ih ((a :: as).drop c) hdrop (flushChunk t ((a :: as).take c))]
          unfold flushChunk
          rw [← List.foldl_append, List.take_append_drop]

lemma chunkList_foldl (c : Nat) (hc : 0 < c) (rows : List RowTuple) (t : ItemsTable) :
    (chunkList c rows).foldl flushChunk t = rows.foldl insertIgnore t := by
  unfold chunkList
  rw [if_neg (Nat.pos_iff_ne_zero.mp hc)]
  exact chunkListAux_foldl c hc rows.length rows le_rfl t

/-- C6: the bulk insert is insert-or-ignore keyed on `code`, so running
the same catalog tuples through `bulk_insert_items` a second time leaves
the items table's rows unchanged — the same row count and the same
sequence (hence set) of `(code, name, unit, kind)` tuples as one run. -/
theorem bulkInsertItems_idempotent (t : ItemsTable) (rows : List RowTuple)
    (chunkSize : Nat) (hc : 0 < chunkSize) :
    (bulkInsertItems (bulkInsertItems t rows chunkSize) rows chunkSize).rows
        = (bulkInsertItems t rows chunkSize).rows ∧
    (bulkInsertItems (bulkInsertItems t rows chunkSize) rows chunkSize).rows.length
        = (bulkInsertItems t rows chunkSize).rows.length ∧
    (bulkInsertItems (bulkInsertItems t rows chunkSize) rows chunkSize).rows.map itemTuple
        = (bulkInsertItems t rows chunkSize).rows.map itemTuple := by
  have hmain : (bulkInsertItems (bulkInsertItems t rows chunkSize) rows chunkSize).rows
      = (bulkInsertItems t rows chunkSize).rows := by
    rw [bulkInsertItems, bulkInsertItems, chunkList_foldl chunkSize hc,
      chunkList_foldl chunkSize hc]
    exact foldl_insertIgnore_rows_noop rows (rows.foldl insertIgnore t)
      (foldl_insertIgnore_covers rows t)
  exact ⟨hmain, congrArg List.length hmain, congrArg (List.map itemTuple) hmain⟩

/-- C6 witness: ingesting two concrete catalog tuples twice with the
default chunk size leaves the table as after one run. -/
theorem bulkInsertItems_idempotent_witness :
    (bulkInsertItems (bulkInsertItems { seq := 1, rows := [] }
          [("R001", "Резистор 10к", none, "resource"), ("W001", "Прокладка труб", some "м", "work")]
          1000)
        [("R001", "Резистор 10к", none, "resource"), ("W001", "Прокладка труб", some "м", "work")]
        1000).rows
      = (bulkInsertItems { seq := 1, rows := [] }
          [("R001", "Резистор 10к", none, "resource"), ("W001", "Прокладка труб", some "м", "work")]
          1000).rows ∧
    (bulkInsertItems (bulkInsertItems { seq := 1, rows := [] }
          [("R001", "Резистор 10к", none, "resource"), ("W001", "Прокладка труб", some "м", "work")]
          1000)
        [("R001", "Резистор 10к", none, "resource"), ("W001", "Прокладка труб", some "м", "work")]
        1000).rows.length
      = (bulkInsertItems { seq := 1, rows := [] }
          [("R001", "Резистор 10к", none, "resource"), ("W001", "Прокладка труб", some "м", "work")]
          1000).rows.length ∧
    (bulkInsertItems (bulkInsertItems { seq := 1, rows := [] }
          [("R001", "Резистор 10к", none, "resource"), ("W001", "Прокладка труб", some "м", "work")]
          1000)
        [("R001", "Резистор 10к", none, "resource"), ("W001", "Прокладка труб", some "м", "work")]
        1000).rows.map itemTuple
      = (bulkInsertItems { seq := 1, rows := [] }
          [("R001", "Резистор 10к", none, "resource"), ("W001", "Прокладка труб", some "м", "work")]
          1000).rows.map itemTuple :=
  bulkInsertItems_idempotent { seq := 1, rows := [] }
    [("R001", "Резистор 10к", none, "resource"), ("W001", "Прокладка труб", some "м", "work")]
    1000 (by decide)

/-! ### Vector indexer — `src/fsnb_matcher/services/index_qdrant.py` -/

/-- An upserted Qdrant point: numeric id, vector, `{"name": ...}`
payload. -/
structure QPoint (V : Type) where
  id : Int
  vector : V
  payloadName : String
deriving DecidableEq

/-- Python call binding for `def encode(texts, *, is_query, batch_size=None)`
(model_giga.py line 91): the call binds successfully iff it passes at
most one positional argument (the single positional parameter `texts`),
binds `texts` positionally or by name but not both, names the required
keyword-only `is_query`, and names no unknown parameter; otherwise the
call raises `TypeError`. -/
def encodeCallBindsOk (nPos : Nat) (kw : List String) : Bool :=
  decide (nPos ≤ 1) &&
    (decide (nPos = 1) || kw.contains "texts") &&
    kw.contains "is_query" &&
    kw.all (fun k => decide (k = "texts") || decide (k = "is_query") ||
      decide (k = "batch_size")) &&
    !(decide (nPos = 1) && kw.contains "texts")

/-- The encode invocation of `init_all_collections` (index_qdrant.py
lines 67 and 87): `asyncio.to_thread(model_giga.encode, texts_batch,
False, len(texts_batch))` hands `encode` three positional arguments and
no keyword arguments. -/
def indexerEncodeCallOk : Bool := encodeCallBindsOk 3 []

/-- The rebuild aborts when the embedded encode call raises. -/
inductive IndexErr where
  | encodeTypeError
deriving DecidableEq

/-- One flush of the accumulated batch (index_qdrant.py lines 67-77 and
87-96): call `encode` on the buffered names — which raises `TypeError`
when the binding fails — then build one `PointStruct(id, vector,
payload=\x7b"name"\x7d)` per buffered item and upsert them. -/
def flushIndexBatch (embed : String → V) (ids : List Int) (texts : List String) :
    Except IndexErr (List (QPoint V)) :=
  if indexerEncodeCallOk then
    .ok ((ids.zip texts).map (fun p => { id := p.1, vector := embed p.2, payloadName := p.2 }))
  else .error .encodeTypeError

/-- `init_all_collections` (index_qdrant.py lines 32-99) over the item
stream `(id, name)`: recreate the collection (the point list starts
empty), buffer each streamed row, flush whenever `batchSize` rows are
buffered and flush the final partial batch; returns the upserted points
and the count written. -/
def initAllCollections (embed : String → V) (stream : List (Int × String))
    (batchSize : Nat) : Except IndexErr (List (QPoint V) × Nat) :=
  go stream [] [] [] 0
where
  go : List (Int × String) → List (QPoint V) → List Int → List String → Nat →
      Except IndexErr (List (QPoint V) × Nat)
  | [], pts, ids, texts, done =>
      if ids.isEmpty then .ok (pts, done)
      else
        match flushIndexBatch embed ids texts with
        | .error e => .error e
        | .ok newPts => .ok (pts ++ newPts, done + newPts.length)
  | (i, name) :: rest, pts, ids, texts, done =>
      let ids2 := ids ++ [i]
      let texts2 := texts ++ [name]
      if ids2.length < batchSize then go rest pts ids2 texts2 done
      else
        match flushIndexBatch embed ids2 texts2 with
        | .error e => .error e
        | .ok newPts => go rest (pts ++ newPts) [] [] (done + newPts.length)

/-- `ItemRepository.iter_for_index` restricted to the columns the indexer
consumes: every item's `(id, name)` ordered by id ascending. -/
def iterForIndex (t : ItemsTable) : List (Int × String) :=
  (sortByKey (fun x => x.id) t.rows).map (fun x => (x.id, x.name))

/-- C7 (code bug): ingesting the single catalog entry
`("R001", "Резистор 10к", None, "resource")` stores exactly one item row,
but rebuilding the vector index over it fails with a `TypeError`: the
indexer passes `encode` three positional arguments although `is_query`
and `batch_size` are keyword-only.  The rebuild aborts before any point
is upserted, so the pipeline never reaches a `match` that could return
the claimed result row with code `"R001"`. -/
theorem pipeline_r001_index_rebuild_fails :
    (bulkInsertItems { seq := 1, rows := [] }
        [("R001", "Резистор 10к", none, "resource")] 1000).rows
      = [{ id := 1, code := "R001", name := "Резистор 10к", unit := none,
           kind := "resource" }] ∧
    indexerEncodeCallOk = false ∧
    initAllCollections (fun _ => ([] : List ℚ))
        (iterForIndex (bulkInsertItems { seq := 1, rows := [] }
          [("R001", "Резистор 10к", none, "resource")] 1000)) 128
      = .error .encodeTypeError := by
  refine ⟨by rfl, by rfl, by rfl⟩

/-! ### MatcherService — `src/fsnb_matcher/services/matcher_service.py`

`match_items` consumes the request dicts, embeds each caption (document
mode, see the gateway section), searches the vector collection per
caption, and merges four result keys into each input dict.  The embedding
model, the collection and the metadata lookup are opaque collaborators,
passed as functions. -/

/-- A Python value as it appears in the match request dicts. -/
inductive PyV where
  | vNone
  | vStr (s : String)
  | vNum (q : ℚ)
deriving DecidableEq

/-- Python truthiness of the modelled values. -/
def pyTruthy : PyV → Bool
  | .vNone => false
  | .vStr s => decide (s ≠ "")
  | .vNum q => decide (q ≠ 0)

/-- Python `str` of the modelled values; the rendering of numbers is
abstracted as the rational's canonical form (the match API carries
captions as strings, where `str` is the identity). -/
def pyStr : PyV → String
  | .vNone => "None"
  | .vStr s => s
  | .vNum q => toString q

/-- A Python dict with string keys: ordered key-value pairs, first
binding authoritative. -/
abbrev Dict := List (String × PyV)

/-- Python `d.get(k, dflt)`. -/
def dictGetV (d : Dict) (k : String) (dflt : PyV) : PyV :=
  match d.find? (fun p => decide (p.1 = k)) with
  | some p => p.2
  | none => dflt

/-- The per-key effect of `{**d, k: v}`: overwrite the existing binding
in place or append the new key at the end. -/
def dictSetV (d : Dict) (k : String) (v : PyV) : Dict :=
  match d with
  | [] => [(k, v)]
  | (k0, v0) :: rest => if k0 = k then (k, v) :: rest else (k0, v0) :: dictSetV rest k v

/-- `str(i.get("Caption", "") or "")` (matcher_service.py line 160). -/
def captionOf (d : Dict) : String :=
  let v := dictGetV d "Caption" (.vStr "")
  if pyTruthy v then pyStr v else ""

/-- A Qdrant point id: integer or UUID string. -/
inductive QId where
  | qInt (n : Int)
  | qStr (s : String)
deriving DecidableEq

/-- One scored hit returned by the vector search. -/
structure Hit where
  id : QId
  score : ℚ
deriving DecidableEq

/-- Digits-only decimal parse, the core of Python `int(str)`. -/
def parseDigits (cs : List Char) : Option Nat :=
  if cs.isEmpty then none
  else if cs.all (fun c => c.isDigit) then
    some (cs.foldl (fun acc c => acc * 10 + (c.toNat - Char.toNat (Char.ofNat 48))) 0)
  else none

/-- Python `int(s)` on a string: optional sign, decimal digits,
surrounding whitespace tolerated (digit-group underscores are not
modelled; no caller produces them). -/
def pyParseInt (s : String) : Option Int :=
  match (pyStrip s).toList with
  | '+' :: rest => (parseDigits rest).map (fun n => (n : Int))
  | '-' :: rest => (parseDigits rest).map (fun n => -(n : Int))
  | cs => (parseDigits cs).map (fun n => (n : Int))

/-- `_safe_int` (matcher_service.py lines 33-38): `int(value)` with
`None` on `TypeError`/`ValueError`. -/
def safeInt : QId → Option Int
  | .qInt n => some n
  | .qStr s => pyParseInt s

/-- `_qdrant_search` (matcher_service.py lines 82-122): the query vectors
are chunked 64 per network request, one `QueryRequest` per vector, and
the responses' point lists concatenated — one ranked hit list per input
vector, in order.  The collection's behaviour is the abstract per-vector
`search`. -/
def qdrantSearch (search : V → List Hit) (vectors : List V) : List (List Hit) :=
  ((chunkList 64 vectors).map (fun chunk => chunk.map search)).flatten

/-- Wrap an optional string column as the Python value placed in the
result dict. -/
def optV : Option String → PyV
  | none => .vNone
  | some s => .vStr s

/-- Merge the four result keys into an input dict, in the order the
result dict literal lists them. -/
def dictSetMatch (d : Dict) (n c u conf : PyV) : Dict :=
  dictSetV (dictSetV (dictSetV (dictSetV d "FSNB Name" n) "FSNB code" c) "FSNB Units" u)
    "conf" conf

/-- One iteration of the result loop of `match_items` (lines 172-224):
no hit — null match with `conf = 0.0`; unmappable point id or missing
metadata — null match carrying the search score; otherwise the hydrated
`(name, unit, code)` with the score. -/
def matchRow (item : Dict) (found : List Hit)
    (meta : Int → Option (String × Option String × Option String)) : Dict :=
  match found with
  | [] => dictSetMatch item .vNone .vNone .vNone (.vNum 0)
  | best :: _ =>
      match safeInt best.id with
      | none => dictSetMatch item .vNone .vNone .vNone (.vNum best.score)
      | some itemId =>
          match meta itemId with
          | none => dictSetMatch item .vNone .vNone .vNone (.vNum best.score)
          | some (name, unit, code) =>
              dictSetMatch item (.vStr name) (optV code) (optV unit) (.vNum best.score)

/-- `match_items` (matcher_service.py lines 137-227): empty input short
circuits; otherwise take each dict's caption, embed the captions through
`_embed_captions` (document mode, no instruction), search the collection
with `limit = topK` per vector, and emit one merged result dict per input
dict in order. -/
def matchItems (embed : String → V) (search : V → List Hit)
    (meta : Int → Option (String × Option String × Option String))
    (jsonItems : List Dict) (topK : Nat) : List Dict :=
  if jsonItems.isEmpty then []
  else
    let captions := jsonItems.map captionOf
    let vectors := (embedCaptionsInputs captions).map embed
    let searches := qdrantSearch (fun v => (search v).take topK) vectors
    (jsonItems.zip searches).map (fun p => matchRow p.1 p.2 meta)

lemma chunkListAux_flatten (n : Nat) (hn : 0 < n) :
    ∀ (fuel : Nat) (l : List α), l.length ≤ fuel → (chunkListAux fuel n l).flatten = l := by
  intro fuel
  induction fuel with
  | zero =>
      intro l hl
      have h0 : l = [] := List.length_eq_zero.mp (Nat.le_zero.mp hl)
      subst h0
      rfl
  | succ m ih =>
      intro l hl
      cases hc : l with
      | nil => rfl
      | cons a as =>
          subst hc
          show (((a :: as).take n :: chunkListAux m n ((a :: as).drop n))).flatten = a :: as
          rw [List.flatten_cons]
          rw [ih ((a :: as).drop n) (by
            rw [List.length_drop]
            simp only [List.length_cons] at hl ⊢
            omega)]
          exact List.take_append_drop n (a :: as)

lemma chunkList_flatten (n : Nat) (hn : 0 < n) (l : List α) : (chunkList n l).flatten = l := by
  unfold chunkList
  rw [if_neg (Nat.pos_iff_ne_zero.mp hn)]
  exact chunkListAux_flatten n hn l.length l le_rfl

lemma qdrantSearch_eq_map (search : V → List Hit) (vectors : List V) :
    qdrantSearch search vectors = vectors.map search := by
  unfold qdrantSearch
  rw [← List.map_flatten, chunkList_flatten 64 (by decide)]

lemma find?_dictSetV_ne (d : Dict) (k : String) (v : PyV) (q : String) (h : q ≠ k) :
    (dictSetV d k v).find? (fun p => decide (p.1 = q)) =
      d.find? (fun p => decide (p.1 = q)) := by
  induction d with
  | nil =>
      simp only [dictSetV, List.find?]
      rw [show (decide (k = q)) = false from decide_eq_false (fun he => h he.symm)]
  | cons p ps ih =>
      obtain ⟨k0, v0⟩ := p
      by_cases hk : k0 = k
      · subst hk
        simp only [dictSetV, if_pos rfl, List.find?]
        rw [show (decide (k0 = q)) = false from decide_eq_false (fun he => h he.symm)]
      · simp only [dictSetV, if_neg hk, List.find?]
        cases hq : decide (k0 = q) with
        | true => rfl
        | false => exact ih

lemma find?_dictSetMatch_ne (d : Dict) (n c u conf : PyV) (q : String)
    (h : q ∉ (["FSNB Name", "FSNB code", "FSNB Units", "conf"] : List String)) :
    (dictSetMatch d n c u conf).find? (fun p => decide (p.1 = q)) =
      d.find? (fun p => decide (p.1 = q)) := by
  have h1 : q ≠ "FSNB Name" := fun he => h (by rw [he]; simp)
  have h2 : q ≠ "FSNB code" := fun he => h (by rw [he]; simp)
  have h3 : q ≠ "FSNB Units" := fun he => h (by rw [he]; simp)
  have h4 : q ≠ "conf" := fun he => h (by rw [he]; simp)
  unfold dictSetMatch
  rw [find?_dictSetV_ne _ _ _ _ h4, find?_dictSetV_ne _ _ _ _ h3,
    find?_dictSetV_ne _ _ _ _ h2, find?_dictSetV_ne _ _ _ _ h1]

lemma find?_matchRow_ne (item : Dict) (found : List Hit)
    (meta : Int → Option (String × Option String × Option String)) (q : String)
    (h : q ∉ (["FSNB Name", "FSNB code", "FSNB Units", "conf"] : List String)) :
    (matchRow item found meta).find? (fun p => decide (p.1 = q)) =
      item.find? (fun p => decide (p.1 = q)) := by
  cases found with
  | nil => exact find?_dictSetMatch_ne item _ _ _ _ q h
  | cons best rest =>
      cases hs : safeInt best.id with
      | none =>
          simp only [matchRow, hs]
          exact find?_dictSetMatch_ne item _ _ _ _ q h
      | some itemId =>
          cases hm : meta itemId with
          | none =>
              simp only [matchRow, hs, hm]
              exact find?_dictSetMatch_ne item _ _ _ _ q h
          | some m =>
              obtain ⟨name, unit, code⟩ := m
              simp only [matchRow, hs, hm]
              exact find?_dictSetMatch_ne item _ _ _ _ q h

/-- C10: `match_items` returns exactly one output dict per input dict, in
input order, and the output dict corresponding to input `i` preserves the
lookup of every key other than the four added or overwritten result keys
`FSNB Name`, `FSNB code`, `FSNB Units` and `conf` — present keys keep
their values and absent keys stay absent. -/
theorem matchItems_frame (embed : String → V) (search : V → List Hit)
    (meta : Int → Option (String × Option String × Option String))
    (jsonItems : List Dict) (topK : Nat) :
    (matchItems embed search meta jsonItems topK).length = jsonItems.length ∧
    ∀ i (hi : i < jsonItems.length)
        (hj : i < (matchItems embed search meta jsonItems topK).length) (q : String),
      q ∉ (["FSNB Name", "FSNB code", "FSNB Units", "conf"] : List String) →
      ((matchItems embed search meta jsonItems topK).get ⟨i, hj⟩).find?
          (fun p => decide (p.1 = q)) =
        (jsonItems.get ⟨i, hi⟩).find? (fun p => decide (p.1 = q)) := by
  by_cases hempty : jsonItems.isEmpty
  · have h0 : jsonItems = [] := by
      cases jsonItems with
      | nil => rfl
      | cons a as => simp at hempty
    subst h0
    refine ⟨rfl, ?_⟩
    intro i hi
    exact absurd hi (by simp)
  · have hunfold : matchItems embed search meta jsonItems topK =
        (jsonItems.zip (qdrantSearch (fun v => (search v).take topK)
          ((embedCaptionsInputs (jsonItems.map captionOf)).map embed))).map
            (fun p => matchRow p.1 p.2 meta) := by
      unfold matchItems
      rw [if_neg hempty]
    have hslen : (qdrantSearch (fun v => (search v).take topK)
        ((embedCaptionsInputs (jsonItems.map captionOf)).map embed)).length
          = jsonItems.length := by
      rw [qdrantSearch_eq_map, List.length_map, List.length_map, embedCaptionsInputs,
        embedTextsInputs, embedTextsDefaultIsQuery, encodeInputs]
      simp
    have hlen : (matchItems embed search meta jsonItems topK).length = jsonItems.length := by
      rw [hunfold, List.length_map, List.length_zip, hslen, Nat.min_self]
    refine ⟨hlen, ?_⟩
    intro i hi hj q hq
    have hjz : i < (jsonItems.zip (qdrantSearch (fun v => (search v).take topK)
        ((embedCaptionsInputs (jsonItems.map captionOf)).map embed))).length := by
      rw [List.length_zip, hslen, Nat.min_self]
      exact hi
    have hout : (matchItems embed search meta jsonItems topK).get ⟨i, hj⟩ =
        matchRow (jsonItems.get ⟨i, hi⟩)
          ((qdrantSearch (fun v => (search v).take topK)
            ((embedCaptionsInputs (jsonItems.map captionOf)).map embed)).get
              ⟨i, by rw [hslen]; exact hi⟩) meta := by
      rw [List.get_of_eq hunfold]
      simp only [List.get_eq_getElem, List.getElem_map, List.getElem_zip]
    rw [hout]
    exact find?_matchRow_ne _ _ meta q hq

/-- C10 witness: a concrete one-item batch whose dict carries an extra
key keeps that key's value and its absent keys absent. -/
theorem matchItems_frame_witness :
    (matchItems (fun _ => (0 : ℚ)) (fun _ => [])
        (fun _ => none) [[("Caption", PyV.vStr "кабель"), ("Units", PyV.vStr "м")]] 1).length
      = 1 ∧
    (((matchItems (fun _ => (0 : ℚ)) (fun _ => [])
        (fun _ => none) [[("Caption", PyV.vStr "кабель"), ("Units", PyV.vStr "м")]] 1).get
          ⟨0, by decide⟩).find? (fun p => decide (p.1 = "Units"))
      = ([("Caption", PyV.vStr "кабель"), ("Units", PyV.vStr "м")] : Dict).find?
          (fun p => decide (p.1 = "Units"))) := by
  have h := matchItems_frame (fun _ => (0 : ℚ)) (fun _ => []) (fun _ => none)
    [[("Caption", PyV.vStr "кабель"), ("Units", PyV.vStr "м")]] 1
  refine ⟨h.1.trans (by decide), ?_⟩
  exact h.2 0 (by decide) (by rw [h.1]; decide) "Units" (by decide)

/-! ### Accelerator gate — model_giga.py lines 24-27 and 101-106

`encode` brackets every model call between `sem.acquire()` and a
`finally: sem.release()` on the process-wide `_gpu_sem`, a
`threading.Semaphore(max(1, slots))`.  The semaphore is modelled at its
documented contract — `acquire` blocks while the counter is zero and
otherwise decrements it, `release` increments it — and the concurrent
callers as an interleaved transition system over their phases. -/

/-- `_gpu_sem` permit count: `Semaphore(max(1, slots))`. -/
def gpuSemPermits (slots : Int) : Nat := (max 1 slots).toNat

/-- Where one logical encode caller stands: before `sem.acquire()`,
inside the model call, or past `sem.release()`. -/
inductive EncPhase where
  | waiting
  | running
  | finished
deriving DecidableEq

/-- The shared state: the semaphore counter and every caller's phase. -/
structure GateState where
  permits : Nat
  threads : List EncPhase
deriving DecidableEq

/-- All callers start before `sem.acquire()` with the full permit
count. -/
def gateInit (slots : Int) (n : Nat) : GateState :=
  { permits := gpuSemPermits slots, threads := List.replicate n .waiting }

/-- Interleaved execution of `encode`: `acquire` fires only when the
counter is positive — a caller with no permit stays `waiting`, it never
fails — and `release` runs in the `finally`, so it fires exactly when the
caller leaves the model call, normally or by exception. -/
inductive GateStep : GateState → GateState → Prop where
  | acquire (s : GateState) (i : Nat) (hi : i < s.threads.length)
      (hw : s.threads.get ⟨i, hi⟩ = .waiting) (p : Nat) (hp : s.permits = p + 1) :
      GateStep s { permits := p, threads := s.threads.set i .running }
  | release (s : GateState) (i : Nat) (hi : i < s.threads.length)
      (hr : s.threads.get ⟨i, hi⟩ = .running) :
      GateStep s { permits := s.permits + 1, threads := s.threads.set i .finished }

/-- States reachable from the initial state by interleaving. -/
inductive GateReach (slots : Int) (n : Nat) : GateState → Prop where
  | init : GateReach slots n (gateInit slots n)
  | step (s s2 : GateState) (h : GateReach slots n s) (hs : GateStep s s2) :
      GateReach slots n s2

/-- The number of callers currently inside the underlying model call. -/
def runningCount (s : GateState) : Nat :=
  s.threads.countP (fun p => decide (p = EncPhase.running))

lemma countP_set_tru (l : List α) (p : α → Bool) :
    ∀ (i : Nat) (hi : i < l.length) (x : α),
      p (l.get ⟨i, hi⟩) = false → p x = true →
      (l.set i x).countP p = l.countP p + 1 := by
  induction l with
  | nil => intro i hi; simp at hi
  | cons a t ih =>
      intro i hi x hold hnew
      cases i with
      | zero =>
          simp only [List.get_eq_getElem, List.getElem_cons_zero] at hold
          simp [List.set, List.countP_cons, hold, hnew]
      | succ j =>
          have hj : j < t.length := by simpa using hi
          simp only [List.get_eq_getElem, List.getElem_cons_succ] at hold
          have := ih j hj x (by simpa using hold) hnew
          simp [List.set, List.countP_cons, this]
          omega

lemma countP_set_fls (l : List α) (p : α → Bool) :
    ∀ (i : Nat) (hi : i < l.length) (x : α),
      p (l.get ⟨i, hi⟩) = true → p x = false →
      l.countP p = (l.set i x).countP p + 1 := by
  induction l with
  | nil => intro i hi; simp at hi
  | cons a t ih =>
      intro i hi x hold hnew
      cases i with
      | zero =>
          simp only [List.get_eq_getElem, List.getElem_cons_zero] at hold
          simp [List.set, List.countP_cons, hold, hnew]
      | succ j =>
          have hj : j < t.length := by simpa using hi
          simp only [List.get_eq_getElem, List.getElem_cons_succ] at hold
          have := ih j hj x (by simpa using hold) hnew
          simp [List.set, List.countP_cons, this]
          omega

lemma runningCount_init (slots : Int) (n : Nat) :
    runningCount (gateInit slots n) = 0 := by
  unfold runningCount gateInit
  induction n with
  | zero => rfl
  | succ m ih => simpa [List.replicate_succ, List.countP_cons] using ih

/-- C9: in every state reachable by concurrent encode callers, the count
of callers simultaneously inside the underlying model call plus the free
permits equals the gate size `max(1, slots)`; hence at most `max(1,
slots)` model calls execute at once, and with a gate of one slot
(`slots ≤ 1`) two callers never run the model call at the same time.
Waiting callers have no failing transition — they block until a permit
frees up. -/
theorem encode_gate_bounded (slots : Int) (n : Nat) (s : GateState)
    (h : GateReach slots n s) :
    runningCount s + s.permits = gpuSemPermits slots ∧
    runningCount s ≤ gpuSemPermits slots ∧
    (slots ≤ 1 → runningCount s ≤ 1) := by
  have hinv : runningCount s + s.permits = gpuSemPermits slots := by
    induction h with
    | init =>
        rw [runningCount_init]
        simp [gateInit]
    | step s1 s2 hr hs ih =>
        cases hs with
        | acquire i hi hw p hp =>
            have hc := countP_set_tru s1.threads
              (fun q => decide (q = EncPhase.running)) i hi .running
              (by rw [hw]; rfl) rfl
            unfold runningCount at ih ⊢
            simp only at hc ⊢
            rw [hc]
            omega
        | release i hi hrn =>
            have hc := countP_set_fls s1.threads
              (fun q => decide (q = EncPhase.running)) i hi .finished
              (by rw [hrn]; rfl) rfl
            unfold runningCount at ih ⊢
            simp only at hc ⊢
            omega
  refine ⟨hinv, by omega, ?_⟩
  intro hs1
  have hperm : gpuSemPermits slots = 1 := by
    unfold gpuSemPermits
    rw [max_eq_left hs1]
    rfl
  omega

/-- The state after the first of two callers acquires the single permit
and enters the model call. -/
def gateAfterAcquire : GateState :=
  { permits := 0, threads := (gateInit 1 2).threads.set 0 EncPhase.running }

/-- C9 witness: with gate size 1 and two callers, the state after the
first caller acquires the permit and enters the model call satisfies the
bound. -/
theorem encode_gate_bounded_witness :
    runningCount gateAfterAcquire + gateAfterAcquire.permits = gpuSemPermits 1 ∧
    runningCount gateAfterAcquire ≤ gpuSemPermits 1 ∧
    ((1 : Int) ≤ 1 → runningCount gateAfterAcquire ≤ 1) :=
  encode_gate_bounded 1 2 gateAfterAcquire
    (GateReach.step _ _ GateReach.init
      (GateStep.acquire (gateInit 1 2) 0 (by decide) (by decide) 0 (by decide)))

/-! ### String-strip lemmas used by the parser refinement -/

lemma head?_dropWhile_not (p : α → Bool) (l : List α) :
    ∀ c, (l.dropWhile p).head? = some c → p c = false := by
  induction l with
  | nil => intro c h; simp [List.dropWhile] at h
  | cons a t ih =>
      intro c h
      rw [List.dropWhile_cons] at h
      cases hpa : p a with
      | true => rw [hpa] at h; simp only [if_true] at h; exact ih c h
      | false =>
          rw [hpa] at h
          simp only [Bool.false_eq_true, if_false, List.head?_cons] at h
          injection h with hac
          rw [← hac]
          exact hpa

lemma dropWhile_eq_self_of_head (p : α → Bool) (l : List α)
    (h : ∀ c, l.head? = some c → p c = false) : l.dropWhile p = l := by
  cases l with
  | nil => rfl
  | cons a t =>
      rw [List.dropWhile_cons, h a rfl]
      simp

lemma stripL_head?_not (lx : List Char) (c : Char) (h : (stripL lx).head? = some c) :
    isPySpace c = false := by
  unfold stripL at h
  rw [List.head?_reverse] at h
  have hvne : (lx.dropWhile isPySpace).reverse.dropWhile isPySpace ≠ [] := by
    intro h0
    rw [h0] at h
    simp at h
  rw [show ((lx.dropWhile isPySpace).reverse.dropWhile isPySpace).getLast?
      = ((lx.dropWhile isPySpace).reverse).getLast? from ?_] at h
  · rw [List.getLast?_reverse] at h
    exact head?_dropWhile_not _ _ c h
  · conv_rhs => rw [← List.takeWhile_append_dropWhile isPySpace (lx.dropWhile isPySpace).reverse]
    rw [List.getLast?_append]
    cases hg : ((lx.dropWhile isPySpace).reverse.dropWhile isPySpace).getLast? with
    | some d => rfl
    | none =>
        exfalso
        exact hvne (by
          rw [← List.getLast?_eq_none_iff]
          exact hg)

lemma stripL_getLast?_not (lx : List Char) (c : Char)
    (h : (stripL lx).getLast? = some c) : isPySpace c = false := by
  unfold stripL at h
  rw [List.getLast?_reverse] at h
  exact head?_dropWhile_not _ _ c h

lemma stripL_sandwich (b e : List Char) (hb : b ≠ []) (he : e ≠ [])
    (h1 : ∀ c, b.head? = some c → isPySpace c = false)
    (h2 : ∀ c, e.getLast? = some c → isPySpace c = false) :
    stripL (b ++ ' ' :: e) = b ++ ' ' :: e := by
  unfold stripL
  have hstep1 : (b ++ ' ' :: e).dropWhile isPySpace = b ++ ' ' :: e := by
    apply dropWhile_eq_self_of_head
    intro c hc
    obtain ⟨c0, t, rfl⟩ := List.exists_cons_of_ne_nil hb
    rw [List.cons_append, List.head?_cons] at hc
    injection hc with hc0
    rw [← hc0]
    exact h1 c0 rfl
  have hel : ∃ d, e.getLast? = some d := by
    cases hg : e.getLast? with
    | some d => exact ⟨d, rfl⟩
    | none => exact absurd (List.getLast?_eq_none_iff.mp hg) he
  obtain ⟨d, hdl⟩ := hel
  have hstep2 : ((b ++ ' ' :: e).reverse).dropWhile isPySpace = (b ++ ' ' :: e).reverse := by
    apply dropWhile_eq_self_of_head
    intro c hc
    rw [List.head?_reverse, List.getLast?_append] at hc
    have hcons : (' ' :: e).getLast? = some d := by
      rw [show (' ' :: e) = [' '] ++ e from rfl, List.getLast?_append, hdl]
      rfl
    rw [hcons] at hc
    injection hc with hdc
    rw [← hdc]
    exact h2 d hdl
  rw [hstep1, hstep2, List.reverse_reverse]

lemma ne_empty_toList (s : String) (h : s ≠ "") : s.toList ≠ [] := by
  intro hl
  apply h
  cases s
  simp_all [String.toList]

lemma asString_toList (s : String) : s.toList.asString = s := rfl

lemma pyStrip_fix_concat (x y : String)
    (hb : pyStrip x ≠ "") (he : pyStrip y ≠ "") :
    pyStrip (pyStrip x ++ " " ++ pyStrip y) = pyStrip x ++ " " ++ pyStrip y := by
  have hb2 : (pyStrip x).toList ≠ [] := ne_empty_toList _ hb
  have he2 : (pyStrip y).toList ≠ [] := ne_empty_toList _ he
  have htl : (pyStrip x ++ " " ++ pyStrip y).toList
      = (pyStrip x).toList ++ ' ' :: (pyStrip y).toList := by
    show (pyStrip x ++ " " ++ pyStrip y).data = (pyStrip x).data ++ ' ' :: (pyStrip y).data
    rw [String.data_append, String.data_append, List.append_assoc]
    rfl
  have hmid := stripL_sandwich ((pyStrip x).toList) ((pyStrip y).toList) hb2 he2
    (fun c hc => stripL_head?_not x.toList c hc)
    (fun c hc => stripL_getLast?_not y.toList c hc)
  show (stripL (pyStrip x ++ " " ++ pyStrip y).toList).asString = pyStrip x ++ " " ++ pyStrip y
  rw [htl, hmid, ← htl, asString_toList]

/-! ### CatalogParser — `src/fsnb_matcher/services/fsnb_xml_parser.py`

`_iter_items_from_base` walks the `iterparse` event stream of a works
("base") document with a `BeginName` stack: a `NameGroup` start pushes
its stripped `BeginName` (or `None`), a `NameGroup` end pops, and a
`Work` end with nonempty stripped `Code` and `EndName` emits
`(code, full_name, unit, "work")`, where `full_name` joins the stack top
and `EndName`.  The document is modelled as an element tree and the
event stream generated from it in document order. -/

/-- An XML element: tag, attributes, children.  The parser reads
attributes only, so text nodes are irrelevant. -/
inductive Xml where
  | elem (tag : String) (attrs : List (String × String)) (children : List Xml)

/-- `el.get(name)`: the element's attribute value, if present. -/
def attrGet (attrs : List (String × String)) (name : String) : Option String :=
  (attrs.find? (fun p => decide (p.1 = name))).map (fun p => p.2)

/-- `(el.get(name) or "").strip()`. -/
def attrStripped (attrs : List (String × String)) (name : String) : String :=
  pyStrip ((attrGet attrs name).getD "")

/-- One `iterparse` event, carrying the element's tag and attributes. -/
inductive XEvent where
  | startEv (tag : String) (attrs : List (String × String))
  | endEv (tag : String) (attrs : List (String × String))

mutual
/-- The `("start", "end")` event stream of one subtree, in document
order. -/
def xmlEvents : Xml → List XEvent
  | .elem tag attrs children =>
      .startEv tag attrs :: (xmlEventsList children ++ [.endEv tag attrs])

/-- The concatenated event streams of a forest. -/
def xmlEventsList : List Xml → List XEvent
  | [] => []
  | x :: xs => xmlEvents x ++ xmlEventsList xs
end

/-- One iteration of the event loop of `_iter_items_from_base`
(fsnb_xml_parser.py lines 62-92), over the state
`(begin_name_stack, in_name_group, emitted)`: a `NameGroup` start pushes
the stripped `BeginName` or `None`; a `Work` end with nonempty stripped
`Code` and `EndName` appends one tuple, the name prefixed by the stack
top when that is non-null (`f-string` then `strip`); a `NameGroup` end
decrements the guarded counter and pops the guarded stack. -/
def baseEventStep (st : List (Option String) × Nat × List RowTuple) (ev : XEvent) :
    List (Option String) × Nat × List RowTuple :=
  match st, ev with
  | (stack, ing, out), .startEv tag attrs =>
      if tag = "NameGroup" then
        (stack ++ [optNonEmpty (attrStripped attrs "BeginName")], ing + 1, out)
      else (stack, ing, out)
  | (stack, ing, out), .endEv tag attrs =>
      if tag = "Work" then
        let code := attrStripped attrs "Code"
        let endName := attrStripped attrs "EndName"
        let unit := optNonEmpty (attrStripped attrs "MeasureUnit")
        if code ≠ "" ∧ endName ≠ "" then
          let fullName :=
            match stack.getLast?.join with
            | some b => pyStrip (b ++ " " ++ endName)
            | none => endName
          (stack, ing, out ++ [(code, fullName, unit, "work")])
        else (stack, ing, out)
      else if tag = "NameGroup" then
        (stack.dropLast, ing - 1, out)
      else (stack, ing, out)

/-- `_iter_items_from_base`: run the event loop over the document's event
stream from the empty stack and collect the emitted tuples. -/
def iterItemsFromBase (doc : Xml) : List RowTuple :=
  ((xmlEvents doc).foldl baseEventStep ([], 0, [])).2.2

mutual
/-- The claim's description of a works catalog: every `Work` element with
nonempty stripped `Code` and `EndName` yields `(code, name, unit,
"work")` after its descendants' tuples, where `name` is the innermost
enclosing `NameGroup`'s nonempty `BeginName` prefix followed by a single
space and the element's own `EndName`, or just `EndName` when the prefix
is absent; a record missing its code or its name yields nothing. -/
def workTuplesSpec (ctx : Option String) : Xml → List RowTuple
  | .elem tag attrs children =>
      let ctx2 := if tag = "NameGroup" then optNonEmpty (attrStripped attrs "BeginName")
        else ctx
      let childOut := workTuplesSpecList ctx2 children
      if tag = "Work" then
        let code := attrStripped attrs "Code"
        let endName := attrStripped attrs "EndName"
        let unit := optNonEmpty (attrStripped attrs "MeasureUnit")
        if code ≠ "" ∧ endName ≠ "" then
          childOut ++
            [(code,
              match ctx with
              | some b => b ++ " " ++ endName
              | none => endName,
              unit, "work")]
        else childOut
      else childOut

/-- The tuples of a forest under a common prefix context. -/
def workTuplesSpecList (ctx : Option String) : List Xml → List RowTuple
  | [] => []
  | x :: xs => workTuplesSpec ctx x ++ workTuplesSpecList ctx xs
end

/-- The stack entries are stripped nonempty strings or nulls. -/
def stackEntryOk : Option String → Prop
  | none => True
  | some b => (∃ z, b = pyStrip z) ∧ b ≠ ""

lemma stackEntryOk_optNonEmpty (z : String) : stackEntryOk (optNonEmpty (pyStrip z)) := by
  unfold optNonEmpty
  split
  · trivial
  · next hne => exact ⟨⟨z, rfl⟩, hne⟩

lemma mem_of_getLast?_eq (l : List α) (a : α) (h : l.getLast? = some a) : a ∈ l := by
  obtain ⟨hne, ha⟩ := List.mem_getLast?_eq_getLast (Option.mem_def.mpr h)
  rw [ha]
  exact List.getLast_mem hne

lemma foldl_baseEventStep_spec :
    ∀ (N : Nat) (t : Xml), sizeOf t ≤ N →
      ∀ (stack : List (Option String)) (ing : Nat) (out : List RowTuple),
        (∀ o ∈ stack, stackEntryOk o) →
        (xmlEvents t).foldl baseEventStep (stack, ing, out)
          = (stack, ing, out ++ workTuplesSpec stack.getLast?.join t) := by
  intro N
  induction N with
  | zero =>
      intro t ht
      cases t with
      | elem tag attrs children =>
          simp only [Xml.elem.sizeOf_spec] at ht
          omega
  | succ N ih =>
      intro t ht stack ing out hstack
      cases t with
      | elem tag attrs children =>
          have hchild : ∀ c ∈ children, sizeOf c ≤ N := by
            intro c hc
            have h1 := List.sizeOf_lt_of_mem hc
            have h2 := ht
            simp only [Xml.elem.sizeOf_spec] at h2
            omega
          have hlist : ∀ (cs : List Xml), (∀ c ∈ cs, sizeOf c ≤ N) →
              ∀ (stack2 : List (Option String)) (ing2 : Nat) (out2 : List RowTuple),
                (∀ o ∈ stack2, stackEntryOk o) →
                (xmlEventsList cs).foldl baseEventStep (stack2, ing2, out2)
                  = (stack2, ing2, out2 ++ workTuplesSpecList stack2.getLast?.join cs) := by
            intro cs
            induction cs with
            | nil =>
                intro _ stack2 ing2 out2 _
                simp [xmlEventsList, workTuplesSpecList]
            | cons c cs ihc =>
                intro hcs stack2 ing2 out2 hst2
                have hev : xmlEventsList (c :: cs) = xmlEvents c ++ xmlEventsList cs := by
                  simp [xmlEventsList]
                rw [hev, List.foldl_append,
                  ih c (hcs c (List.mem_cons_self c cs)) stack2 ing2 out2 hst2,
                  ihc (fun d hd => hcs d (List.mem_cons_of_mem c hd)) stack2 ing2
                    (out2 ++ workTuplesSpec stack2.getLast?.join c) hst2]
                have hsp : workTuplesSpecList stack2.getLast?.join (c :: cs)
                    = workTuplesSpec stack2.getLast?.join c
                      ++ workTuplesSpecList stack2.getLast?.join cs := by
                  simp [workTuplesSpecList]
                rw [hsp, List.append_assoc]
          have hev2 : xmlEvents (Xml.elem tag attrs children)
              = XEvent.startEv tag attrs :: (xmlEventsList children
                  ++ [XEvent.endEv tag attrs]) := by
            simp [xmlEvents]
          rw [hev2, List.foldl_cons]
          by_cases hng : tag = "NameGroup"
          · have hstart : baseEventStep (stack, ing, out) (XEvent.startEv tag attrs)
                = (stack ++ [optNonEmpty (attrStripped attrs "BeginName")], ing + 1, out) := by
              simp [baseEventStep, hng]
            have hst2 : ∀ o ∈ stack ++ [optNonEmpty (attrStripped attrs "BeginName")],
                stackEntryOk o := by
              intro o ho
              rcases List.mem_append.mp ho with h | h
              · exact hstack o h
              · rw [List.mem_singleton.mp h]
                exact stackEntryOk_optNonEmpty _
            rw [hstart, List.foldl_append,
              hlist children hchild _ (ing + 1) out hst2]
            have hctx : (stack ++ [optNonEmpty (attrStripped attrs "BeginName")]).getLast?.join
                = optNonEmpty (attrStripped attrs "BeginName") := by
              rw [List.getLast?_concat]
              rfl
            rw [hctx, List.foldl_cons, List.foldl_nil]
            have hnw : ¬(tag = "Work") := by rw [hng]; decide
            have hend : baseEventStep
                (stack ++ [optNonEmpty (attrStripped attrs "BeginName")], ing + 1,
                  out ++ workTuplesSpecList (optNonEmpty (attrStripped attrs "BeginName"))
                    children)
                (XEvent.endEv tag attrs)
                = (stack, ing,
                  out ++ workTuplesSpecList (optNonEmpty (attrStripped attrs "BeginName"))
                    children) := by
              simp [baseEventStep, hnw, hng, List.dropLast_concat]
            rw [hend]
            have hspec : workTuplesSpec stack.getLast?.join (Xml.elem tag attrs children)
                = workTuplesSpecList (optNonEmpty (attrStripped attrs "BeginName"))
                    children := by
              simp [workTuplesSpec, hng, hnw]
            rw [hspec]
          · have hstart : baseEventStep (stack, ing, out) (XEvent.startEv tag attrs)
                = (stack, ing, out) := by
              simp [baseEventStep, hng]
            rw [hstart, List.foldl_append,
              hlist children hchild stack ing out hstack,
              List.foldl_cons, List.foldl_nil]
            by_cases hw : tag = "Work"
            · by_cases hcode : attrStripped attrs "Code" ≠ "" ∧ attrStripped attrs "EndName" ≠ ""
              · have hend : baseEventStep (stack, ing,
                    out ++ workTuplesSpecList stack.getLast?.join children)
                      (XEvent.endEv tag attrs)
                    = (stack, ing,
                      (out ++ workTuplesSpecList stack.getLast?.join children)
                        ++ [(attrStripped attrs "Code",
                          match stack.getLast?.join with
                          | some b => pyStrip (b ++ " " ++ attrStripped attrs "EndName")
                          | none => attrStripped attrs "EndName",
                          optNonEmpty (attrStripped attrs "MeasureUnit"), "work")]) := by
                  simp [baseEventStep, hw, hcode]
                rw [hend]
                have hname : (match stack.getLast?.join with
                    | some b => pyStrip (b ++ " " ++ attrStripped attrs "EndName")
                    | none => attrStripped attrs "EndName")
                    = (match stack.getLast?.join with
                    | some b => b ++ " " ++ attrStripped attrs "EndName"
                    | none => attrStripped attrs "EndName") := by
                  cases hb : stack.getLast?.join with
                  | none => rfl
                  | some b =>
                      have hentry : (some b) ∈ stack := by
                        cases hgl : stack.getLast? with
                        | none => rw [hgl] at hb; cases hb
                        | some o =>
                            rw [hgl] at hb
                            have : o = some b := hb
                            rw [← this]
                            exact mem_of_getLast?_eq stack o hgl
                      obtain ⟨⟨z, hz⟩, hbne⟩ := hstack (some b) hentry
                      show pyStrip (b ++ " " ++ attrStripped attrs "EndName")
                          = b ++ " " ++ attrStripped attrs "EndName"
                      have hename : attrStripped attrs "EndName"
                          = pyStrip ((attrGet attrs "EndName").getD "") := rfl
                      rw [hename, hz]
                      exact pyStrip_fix_concat z ((attrGet attrs "EndName").getD "")
                        (hz ▸ hbne) (hename ▸ hcode.2)
                have hspec : workTuplesSpec stack.getLast?.join (Xml.elem tag attrs children)
                    = workTuplesSpecList stack.getLast?.join children
                      ++ [(attrStripped attrs "Code",
                        match stack.getLast?.join with
                        | some b => b ++ " " ++ attrStripped attrs "EndName"
                        | none => attrStripped attrs "EndName",
                        optNonEmpty (attrStripped attrs "MeasureUnit"), "work")] := by
                  simp [workTuplesSpec, hw, hng, hcode]
                rw [hname, hspec, List.append_assoc]
              · have hend : baseEventStep (stack, ing,
                    out ++ workTuplesSpecList stack.getLast?.join children)
                      (XEvent.endEv tag attrs)
                    = (stack, ing, out ++ workTuplesSpecList stack.getLast?.join children) := by
                  simp [baseEventStep, hw, hcode]
                have hspec : workTuplesSpec stack.getLast?.join (Xml.elem tag attrs children)
                    = workTuplesSpecList stack.getLast?.join children := by
                  simp [workTuplesSpec, hw, hng, hcode]
                rw [hend, hspec]
            · have hend : baseEventStep (stack, ing,
                  out ++ workTuplesSpecList stack.getLast?.join children)
                    (XEvent.endEv tag attrs)
                  = (stack, ing, out ++ workTuplesSpecList stack.getLast?.join children) := by
                simp [baseEventStep, hw, hng]
              have hspec : workTuplesSpec stack.getLast?.join (Xml.elem tag attrs children)
                  = workTuplesSpecList stack.getLast?.join children := by
                simp [workTuplesSpec, hw, hng]
              rw [hend, hspec]

/-- C8: the works-catalog parser `_iter_items_from_base` emits exactly
the tuples the specification describes: one `(code, name, unit, "work")`
tuple per `Work` record whose stripped `Code` and `EndName` are nonempty,
where `name` is the innermost enclosing `NameGroup`'s nonempty
`BeginName` prefix followed by a single space and the record's own
`EndName` — just `EndName` when the prefix is absent — and any record
missing its code or its name is silently skipped. -/
theorem iterItemsFromBase_eq_spec (doc : Xml) :
    iterItemsFromBase doc = workTuplesSpec none doc := by
  unfold iterItemsFromBase
  rw [foldl_baseEventStep_spec (sizeOf doc) doc le_rfl [] 0 []
    (by intro o ho; cases ho)]
  rfl

end Fsnb
